import Mathlib

/-!
Verification of the BubbaGrump AWS-resource-discovery core against its
natural-language specification.  The Python sources are shallowly embedded:

* `Value` models the Python values flowing through the system (strings,
  ints, booleans, lists, dicts).  Python dicts are modelled as association
  lists in insertion order.
* `V1Util.labeled_product` / `V2Util.labeled_product` embed the two
  generations of `labeled_product` (src/aws_service_model/util.py and
  src/v2/util.py); both call the same library cartesian product
  (`itertools.product`), embedded once as `pyProduct`.
-/

/-- Python values as they appear in parameter maps, responses and entity
pools: strings, integers, booleans, lists and string-keyed dicts. -/
inductive Value where
  | str (s : String)
  | int (n : Int)
  | bool (b : Bool)
  | list (xs : List Value)
  | dict (kvs : List (String × Value))

mutual

/-- Python structural equality (`==`) on `Value`, used by `set` membership
in `Universe.spawn`. -/
def Value.beq : Value → Value → Bool
  | .str a, .str b => a == b
  | .int a, .int b => a == b
  | .bool a, .bool b => a == b
  | .list xs, .list ys => Value.beqList xs ys
  | .dict xs, .dict ys => Value.beqKVs xs ys
  | _, _ => false

/-- Elementwise `Value.beq` on lists. -/
def Value.beqList : List Value → List Value → Bool
  | [], [] => true
  | x :: xs, y :: ys => Value.beq x y && Value.beqList xs ys
  | _, _ => false

/-- Pairwise `Value.beq` on string-keyed pair lists. -/
def Value.beqKVs : List (String × Value) → List (String × Value) → Bool
  | [], [] => true
  | (k₁, v₁) :: xs, (k₂, v₂) :: ys =>
      k₁ == k₂ && Value.beq v₁ v₂ && Value.beqKVs xs ys
  | _, _ => false

end

/-- `itertools.product` over a list of candidate lists, in the library's
order (first iterable outermost, last iterable fastest-varying). -/
def pyProduct : List (List Value) → List (List Value)
  | [] => [[]]
  | vs :: rest => vs.flatMap (fun v => (pyProduct rest).map (fun p => v :: p))

namespace V1Util

/-- `labeled_product` from src/aws_service_model/util.py: zip the keys with
every tuple of `itertools.product` over the value lists; afterwards, when
`include_empty` holds and `len(values) == 0` (the input dict is empty),
yield one extra empty dict. -/
def labeled_product (iterables : List (String × List Value))
    (include_empty : Bool) : List (List (String × Value)) :=
  let keys := iterables.map (·.1)
  let values := iterables.map (·.2)
  ((pyProduct values).map (fun p => keys.zip p)) ++
    (if include_empty && values.isEmpty then [[]] else [])

end V1Util

namespace V2Util

/-- `labeled_product` from src/v2/util.py: identical product part, but the
extra empty dict is yielded when `include_empty` holds and the input dict
is NOT empty (`iterables != dict()`). -/
def labeled_product (iterables : List (String × List Value))
    (include_empty : Bool) : List (List (String × Value)) :=
  let keys := iterables.map (·.1)
  let values := iterables.map (·.2)
  ((pyProduct values).map (fun p => keys.zip p)) ++
    (if include_empty && !iterables.isEmpty then [[]] else [])

end V2Util

/-! ## Python dicts as association lists

`findAssoc m k` is `m.get(k)`; `setAssoc m k v` is `m[k] = v` (an existing
key keeps its position, a new key is appended — Python's insertion order). -/

/-- Dict read `m.get(k)`: the value at the first matching key. -/
def findAssoc {α β : Type} [DecidableEq α] : List (α × β) → α → Option β
  | [], _ => none
  | (k', v') :: rest, k => if k = k' then some v' else findAssoc rest k

/-- Dict write `m[k] = v`: replace in place, or append when absent. -/
def setAssoc {α β : Type} [DecidableEq α] : List (α × β) → α → β → List (α × β)
  | [], k, v => [(k, v)]
  | (k', v') :: rest, k, v =>
      if k = k' then (k, v) :: rest else (k', v') :: setAssoc rest k v

/-! ## The v1 `Universe` (src/aws_service_model/universe.py)

`Universe.dimensions` maps a dimension key to a dict from species name to a
pool of images; a pool is a `set` when the species was first spawned with
`hashable=True` and a `list` otherwise.  The `All` sentinel dimension is
present from construction. -/

/-- A dimension key: a concrete dimension name or the `All` sentinel. -/
inductive DimKey where
  | all
  | dim (s : String)
deriving DecidableEq

/-- A species pool: Python `set` (insertion-ordered, duplicate-free via
`Value.beq`) or Python `list` (append-only). -/
inductive Pool where
  | hset (xs : List Value)
  | plist (xs : List Value)

/-- Iterating a pool (`list(...)` over a set or list). -/
def Pool.toList : Pool → List Value
  | .hset xs => xs
  | .plist xs => xs

/-- `set.add` / `list.append` as `Universe.spawn` performs them. -/
def Pool.add (p : Pool) (image : Value) : Pool :=
  match p with
  | .hset xs => if xs.any (fun x => Value.beq x image) then .hset xs
                else .hset (xs ++ [image])
  | .plist xs => .plist (xs ++ [image])

/-- The v1 `Universe`: dimension key to species dict. -/
structure Universe where
  dims : List (DimKey × List (String × Pool))

/-- `Universe.__init__`: `{All: dict()}`. -/
def Universe.empty : Universe := ⟨[(DimKey.all, [])]⟩

/-- `Universe.spawn(dimension, species, image, hashable)`: create the
dimension and species pool on demand (`set` iff `hashable`), then add the
image to the pool. -/
def Universe.spawn (u : Universe) (dimension : DimKey) (species : String)
    (image : Value) (hashable : Bool := false) : Universe :=
  let dim := (findAssoc u.dims dimension).getD []
  let pool := match findAssoc dim species with
    | some p => p
    | none => if hashable then Pool.hset [] else Pool.plist []
  ⟨setAssoc u.dims dimension (setAssoc dim species (pool.add image))⟩

/-- `Universe.images(dimension, species)`: the pool in the given dimension
followed by the pool in the `All` dimension. -/
def Universe.images (u : Universe) (dimension : DimKey) (species : String) :
    List Value :=
  (match findAssoc ((findAssoc u.dims dimension).getD []) species with
   | some p => p.toList
   | none => []) ++
  (match findAssoc ((findAssoc u.dims DimKey.all).getD []) species with
   | some p => p.toList
   | none => [])

/-! ## `Entity.hash` and `Domain.manifest` (src/aws_service_model/domain.py)

`Entity.hash` maps a value to a nested tuple: hashable atoms hash through
Python's `hash` (modelled injectively by the atom itself), dicts to the
key-sorted tuple of `(key, hash(value))` pairs, lists to the ordered tuple
of element hashes.  The nested tuple is linearized here into an unambiguous
token list, so token-list equality coincides with tuple equality. -/

/-- Tokens of the linearized structural hash. -/
inductive HTok where
  | hstr (s : String)
  | hint (n : Int)
  | hbool (b : Bool)
  | pkey (s : String)
  | lparen
  | rparen
deriving DecidableEq

/-- Insertion of a keyed element into a key-sorted list (the `sorted(...)`
step of `Entity.hash` on dicts; dict keys are unique, so Python's tuple
comparison only ever compares the keys). -/
def insertByKey {β : Type} (p : String × β) : List (String × β) → List (String × β)
  | [] => [p]
  | q :: rest => if p.1 ≤ q.1 then p :: q :: rest else q :: insertByKey p rest

/-- Key-sorting a pair list (insertion sort, stable). -/
def sortByKey {β : Type} : List (String × β) → List (String × β)
  | [] => []
  | p :: rest => insertByKey p (sortByKey rest)

mutual

/-- `Entity.hash` (src/aws_service_model/domain.py): structural hash of a
nested value, linearized to tokens. -/
def entityHash : Value → List HTok
  | .str s => [.hstr s]
  | .int n => [.hint n]
  | .bool b => [.hbool b]
  | .list xs => [.lparen] ++ entityHashList xs ++ [.rparen]
  | .dict kvs =>
      [.lparen] ++
        ((sortByKey (entityHashPairs kvs)).flatMap
          (fun p => [HTok.pkey p.1] ++ p.2)) ++ [.rparen]

/-- Ordered element hashes of a list value. -/
def entityHashList : List Value → List HTok
  | [] => []
  | x :: xs => entityHash x ++ entityHashList xs

/-- `(k, Entity.hash(v))` pairs of a dict value, in dict order (sorted by
the caller). -/
def entityHashPairs : List (String × Value) → List (String × List HTok)
  | [] => []
  | (k, v) :: rest => (k, entityHash v) :: entityHashPairs rest

end

/-- The entity store of one v1 `Domain` (src/aws_service_model/domain.py):
`entities` is a Python `set` of `Entity`, whose `__hash__` and `__eq__` are
both defined through `Entity.hash` of the image — membership is structural
hash equality.  Entities are modelled by their images; the `dimensions`,
`facts` and lineage (`parents`) fields play no role in storage identity and
are outside this embedding's scope. -/
structure PyDomain where
  entities : List Value

/-- `Domain.manifest(image)`: add an entity for the image unless one with
the same structural hash is already stored (Python `set.add` under
hash-equality `__eq__`). -/
def PyDomain.manifest (d : PyDomain) (image : Value) : PyDomain :=
  if d.entities.any (fun e => entityHash e == entityHash image) then d
  else ⟨d.entities ++ [image]⟩

/-! ## `careful_dict_update` (src/aws_service_model/util.py) and the
paginated branch of `Operation.call` (src/aws_service_model/shapes.py). -/

/-- One iteration of the `careful_dict_update` loop body for the incoming
pair `(k, v)`: `first[k] += v` when both the existing and the incoming
values are lists, `first[k] = v` otherwise. -/
def cduStep (first : List (String × Value)) (k : String) (v : Value) :
    List (String × Value) :=
  match findAssoc first k, v with
  | some (Value.list xs), Value.list ys =>
      setAssoc first k (Value.list (xs ++ ys))
  | _, _ => setAssoc first k v

/-- `careful_dict_update(first, second)`: run the loop body over the items
of `second` in order. -/
def careful_dict_update (first : List (String × Value)) :
    List (String × Value) → List (String × Value)
  | [] => first
  | (k, v) :: rest => careful_dict_update (cduStep first k v) rest

/-- The paginated branch of `Operation.call`: start from the empty dict and
fold every page the paginator yields in with `careful_dict_update`.  The
boto paginator is the external invocation collaborator; its pages are taken
as given. -/
def Operation.call_paginated (pages : List (List (String × Value))) :
    List (String × Value) :=
  pages.foldl careful_dict_update []

/-! ## v1 shape construction (src/aws_service_model/shapes.py)

`VShape` is the shape tree as it stands after v1 `__init__` resolution
(member references resolved into child shapes; `Map.construct` never
descends into its key/value shapes, so they are not needed here).  For a
`String` shape only the `enum` constraint participates in `construct`; the
`max`/`min`/`pattern` constraint slots are never read by it.  Python raises
are modelled with `Except`:

* `typeError` — `list(None)` in `List.construct` when the member shape
  returned `None`, or `itertools.product` over a `None` member in plain
  `Structure.construct` (Python defers the latter to the generator's first
  consumption; every consumer in this code materializes the generator, so
  the eager error is observationally the same and no map is ever yielded).
* `insufficientMembers` — `InsufficientMembersException` exactly as raised
  by `Request.construct`; the exception class itself lives in the module
  `aws_service_model/exceptions.py`, absent from src/, and is modelled from
  its raise site as a plain data carrier.
-/

/-- A Python exception escaping v1 parameter construction. -/
inductive PyErr where
  | typeError
  | insufficientMembers (shape : String) (required : List String)
      (available : List String)
deriving DecidableEq, Repr

/-- A resolved v1 shape, as `construct` consumes it. -/
inductive VShape where
  | leaf (name : String)
  | strshape (name : String) (enum : Option (List String))
  | mapshape (name : String)
  | listshape (name : String) (member : VShape)
  | struct (name : String) (members : List (String × VShape))

mutual

/-- v1 `construct(universe)` for non-`Request` shapes.  The result is
`some candidates` for a normal return, `none` for a Python `None` return
(`String.construct` with no known values and no declared enum: the
`"enum" in self.constraints` test is always true because the constraints
dict always carries the key, so the branch returns `self.constraints["enum"]`,
i.e. `None` when no enum is declared). -/
def VShape.construct (svc : String) (u : Universe) :
    VShape → Except PyErr (Option (List Value))
  | .leaf name =>
      let s := u.images (DimKey.dim svc) name
      if s.isEmpty then .ok (some []) else .ok (some s)
  | .strshape name enum =>
      let s := u.images (DimKey.dim svc) name
      if s.isEmpty then
        match enum with
        | some es => .ok (some (es.map Value.str))
        | none => .ok none
      else .ok (some s)
  | .mapshape name => .ok (some (u.images (DimKey.dim svc) name))
  | .listshape _ member =>
      match VShape.construct svc u member with
      | .error e => .error e
      | .ok none => .error .typeError
      | .ok (some xs) => .ok (some [Value.list xs])
  | .struct _ members =>
      match VShape.constructMembers svc u members with
      | .error e => .error e
      | .ok params =>
          if params.any (fun p => p.2.isNone) then .error .typeError
          else
            .ok (some ((V1Util.labeled_product
              (params.map (fun p => (p.1, p.2.getD []))) false).map Value.dict))

/-- The member dict comprehension of `Structure.construct` /
`Request.construct`: evaluate each member's `construct` eagerly, in member
order, propagating the first raise. -/
def VShape.constructMembers (svc : String) (u : Universe) :
    List (String × VShape) → Except PyErr (List (String × Option (List Value)))
  | [] => .ok []
  | (n, s) :: rest =>
      match VShape.construct svc u s with
      | .error e => .error e
      | .ok r =>
          match VShape.constructMembers svc u rest with
          | .error e => .error e
          | .ok rs => .ok ((n, r) :: rs)

end

/-- `Request.construct` (src/aws_service_model/shapes.py lines 205-225) on
the default `included_members` path: construct every member (the member
dict is taken after the pagination-input exclusion of
`Request.members()`), throw away `None` results, require the remaining
keys to cover the required names (else raise
`InsufficientMembersException`), then emit the labeled cross-product with
`include_empty` set exactly when the required set is empty. -/
def Request.construct (svc shapeName : String)
    (members : List (String × VShape)) (required : List String)
    (u : Universe) : Except PyErr (List (List (String × Value))) :=
  match VShape.constructMembers svc u members with
  | .error e => .error e
  | .ok params₀ =>
      let params := params₀.filterMap (fun p => p.2.map (fun xs => (p.1, xs)))
      if required.all (fun r => (params.map (·.1)).contains r) then
        .ok (V1Util.labeled_product params required.isEmpty)
      else
        .error (.insufficientMembers shapeName required (params.map (·.1)))

/-- v2 `Structure.reap` (src/v2/shapes.py lines 229-235): each member
shape's own `reap` sequence is taken as a given candidate pool (the
structure only iterates it); only required members enter the labeled
product, and every candidate map must pass `requirements_met`, i.e. its
keys must be a superset of the required member names. -/
def StructureV2.reap (members : List (String × List Value))
    (required : List String) (include_empty : Bool) :
    List (List (String × Value)) :=
  (V2Util.labeled_product (members.filter (fun p => required.contains p.1))
      include_empty).filter
    (fun m => required.all (fun r => (m.map (·.1)).contains r))

/-! ## The v1 scheduler (src/grump.py)

A read-only operation is carried with the data the scheduler consumes: its
name, the candidate parameter maps its input shape constructs for the
current domain (for starters `construct` cannot raise insufficient-members
because the required set is empty), the underlying boto call, and the
`NONFATAL_EXCEPTIONS` allow-list for `(service, operation)`.  Failure
kinds are carried by name. -/

/-- One read-only operation as src/grump.py schedules it. -/
structure SchedOp where
  name : String
  candidates : List (List (String × Value))
  call0 : List (String × Value) → Except String Value
  allowed : List String

/-- `func_wrapper` (src/aws_service_model/service.py lines 28-39) applied
to the operation's method: an allow-listed failure kind is printed and
turned into a `None` response; any other kind re-raises. -/
def SchedOp.call (op : SchedOp) (params : List (String × Value)) :
    Except String (Option Value) :=
  match op.call0 params with
  | .ok v => .ok (some v)
  | .error e => if op.allowed.contains e then .ok none else .error e

/-- One starter's batch (the body of the starter loop, src/grump.py lines
46-57): call the operation once per candidate parameter map; a non-`None`
response is harvested (`op.output().populate`, abstracted by `populate`)
and sets the `success` flag; an unhandled raise propagates. -/
def starterBatch (populate : Value → PyDomain → PyDomain) (op : SchedOp)
    (d : PyDomain) : Except String (PyDomain × Bool) :=
  op.candidates.foldlM
    (fun (acc : PyDomain × Bool) params =>
      match op.call params with
      | .error e => .error e
      | .ok none => .ok acc
      | .ok (some v) => .ok (populate v acc.1, true))
    (d, false)

/-- The starter loop (src/grump.py lines 46-61): run each starter's batch
in order; a starter is removed from the pending read-only operations only
when its batch succeeded (`if success: read_only_operations.remove(op)`,
with `Operation.__eq__` comparing names). -/
def starterPhase (populate : Value → PyDomain → PyDomain)
    (starters : List SchedOp) (pending : List SchedOp) (d : PyDomain) :
    Except String (PyDomain × List SchedOp) :=
  starters.foldlM
    (fun (acc : PyDomain × List SchedOp) op =>
      match starterBatch populate op acc.1 with
      | .error e => .error e
      | .ok (d', success) =>
          .ok (d', if success then acc.2.eraseP (fun o => o.name == op.name)
                   else acc.2))
    (d, pending)

/-! ## The fixpoint loop (src/grump.py lines 64-87)

`attempt` abstracts one pending operation's construct-call-populate round
over the scheduler state `σ` (the entity domain): it reports `true` when
the operation harvested at least one response this pass and `false` when
it raised insufficient-members or produced no response.  One pass sweeps
the pending list in order; on each harvested response the source runs
`successes.add(rop)` — but `Operation` (shapes.py line 296) defines
`__eq__` without `__hash__`, so in Python 3 its instances are unhashable
and the `add` raises `TypeError`, which the surrounding `try` (catching
only `InsufficientMembersException`) does not handle: the pass, the while
loop and the run abort on the first harvested response.  The state the
aborted pass had accumulated up to the raise is discarded with the raise.
A pass that completes therefore always carries the empty success set;
after it, the removal loop over the successes runs (vacuously) and the
`if successes == set(): break` fires.  The loop is modelled with explicit
fuel — `none` is fuel exhaustion, `some (Except.error e)` an uncaught
raise escaping the loop, `some (Except.ok (st, p, n))` a normal exit
after `n` passes with `p` still pending. -/

/-- One fixpoint pass: sweep the remaining operations, threading the
scheduler state; the first harvested response raises `TypeError` at
`successes.add(rop)` (unhashable `Operation`), so the success set can
never grow. -/
def runPass {σ : Type} (attempt : σ → SchedOp → σ × Bool) :
    σ → List SchedOp → List SchedOp → Except PyErr (σ × List SchedOp)
  | st, succ, [] => .ok (st, succ)
  | st, succ, op :: rest =>
      let r := attempt st op
      if r.2 then .error .typeError
      else runPass attempt r.1 succ rest

/-- `for op in successes: read_only_operations.remove(op)`
(`Operation.__eq__` compares names, `list.remove` drops the first
match). -/
def removeAll (pending : List SchedOp) (succ : List SchedOp) : List SchedOp :=
  succ.foldl (fun p op => p.eraseP (fun o => o.name == op.name)) pending

/-- The fixpoint loop, with fuel bounding the number of passes.  Returns
the final state, the operations still pending, and the number of passes
run; an uncaught raise from a pass propagates out of the loop. -/
def fixLoop {σ : Type} (attempt : σ → SchedOp → σ × Bool) :
    Nat → σ → List SchedOp → Option (Except PyErr (σ × List SchedOp × Nat))
  | 0, _, _ => none
  | fuel + 1, st, pending =>
      if pending.isEmpty then some (.ok (st, pending, 0))
      else
        match runPass attempt st [] pending with
        | .error e => some (.error e)
        | .ok (st₁, succ) =>
            let pending' := removeAll pending succ
            if succ.isEmpty then some (.ok (st₁, pending', 1))
            else
              match fixLoop attempt fuel st₁ pending' with
              | none => none
              | some (.error e) => some (.error e)
              | some (.ok (st₂, p₂, n)) => some (.ok (st₂, p₂, n + 1))

/-! ## The v2 `ShapeDomain` builder (src/v2/shapes.py)

`ShapeDomain.__getitem__` resolves a raw (boto) shape into a functional
shape with two-phase memoization: a fresh instance is allocated, its
*silhouette* (`minimal_canonical_form()`: name, type tag, hint-stripped
metadata) is looked up in the transient `silhouettes` memo — a hit returns
the still-incomplete in-flight instance; otherwise the silhouette is
registered, `build()` recursively resolves the referenced raw shapes, the
silhouette entry is deleted, and the instance is installed in the
permanent table `𝕊` under its full `canonical_form()` unless that
canonical form is already present, in which case the existing instance is
returned.

Instances are identified by an allocation counter (`nextId`), standing for
Python object identity.  The built members an instance stores are not
needed by the claims, so the state keeps only the two memo tables and the
counter; the recursion over the referenced shapes — the part on which
termination hinges — is modelled in full.  `float(...)` parsing of numeric
min/max metadata is kept as the raw metadata entries (the claims never
compare shapes differing only by float spelling).  Both recursions of the
source (`build` and `canonical_form`) are modelled with fuel, so that
termination on cyclic schemas is exactly the theorem that enough fuel
never returns `none`. -/

/-- A metadata value of a raw boto shape (string-valued entries such as
`min`/`max`/`timestampFormat`/`idempotencyToken`, or the `enum` literal
list). -/
inductive MetaVal where
  | s (v : String)
  | slist (vs : List String)
deriving DecidableEq, Repr

/-- The raw shape type tags of src/v2/shapes.py `SHAPE_TYPE_MAPPING`. -/
inductive ShapeTag where
  | blob | boolean | double | float | integer | long
  | string | struct | list | map | timestamp
deriving DecidableEq, Repr

/-- A raw boto shape as `ShapeDomain.__getitem__` consumes it: type tag,
metadata, and the raw-shape references `build()` resolves (structure
members, list member, map key/value), plus the `_shape_model` extras. -/
structure RawShape where
  tag : ShapeTag
  metadata : List (String × MetaVal)
  members : List (String × String)
  member : Option String
  key : Option String
  value : Option String
  pattern : Option String
  tsFormat : Option String
deriving DecidableEq, Repr

/-- The raw references `build()` resolves through the domain, per tag. -/
def RawShape.refs (r : RawShape) : List String :=
  match r.tag with
  | .struct => r.members.map (·.2)
  | .list => r.member.toList
  | .map => r.key.toList ++ r.value.toList
  | _ => []

/-- `Shape.HINT_METADATA` stripping: `idempotencyToken` is moved out of the
metadata before any identity is computed. -/
def stripHints (md : List (String × MetaVal)) : List (String × MetaVal) :=
  md.filter (fun kv => kv.1 ≠ "idempotencyToken")

/-- A silhouette (`minimal_canonical_form()`): name, type tag, and
hint-stripped metadata. -/
def Sil : Type := String × ShapeTag × List (String × MetaVal)

instance : DecidableEq Sil := by unfold Sil; infer_instance

/-- The silhouette of the raw shape registered under a name. -/
def sil (n : String) (r : RawShape) : Sil := (n, r.tag, stripHints r.metadata)

/-- A full `canonical_form()` value.  `Structure.canonical_form` is its
minimal form (the member component is commented out in the source); list
and map forms embed their children's canonical forms; leaf forms add their
constraint metadata. -/
inductive CanForm where
  | base (s : Sil)
  | numC (s : Sil) (mn mx : Option MetaVal)
  | strC (s : Sil) (mn mx : Option MetaVal) (enum : Option MetaVal)
      (pattern : String)
  | tsC (s : Sil) (fmt : String)
  | listC (s : Sil) (m : CanForm)
  | mapC (s : Sil) (k v : CanForm)
deriving DecidableEq

/-- `canonical_form()` computed over the raw schema, with fuel for the
recursion into list members and map keys/values.  A structure's canonical
form is its silhouette, so recursion never passes through a structure —
exactly the property that makes structure-involving cycles benign. -/
def canonicalForm (schema : List (String × RawShape)) :
    Nat → String → Option CanForm
  | 0, _ => none
  | fuel + 1, n =>
      match findAssoc schema n with
      | none => none
      | some raw =>
          let s := sil n raw
          match raw.tag with
          | .struct => some (.base s)
          | .blob => some (.base s)
          | .boolean => some (.base s)
          | .double => some (.numC s (findAssoc raw.metadata "min")
              (findAssoc raw.metadata "max"))
          | .float => some (.numC s (findAssoc raw.metadata "min")
              (findAssoc raw.metadata "max"))
          | .integer => some (.numC s (findAssoc raw.metadata "min")
              (findAssoc raw.metadata "max"))
          | .long => some (.numC s (findAssoc raw.metadata "min")
              (findAssoc raw.metadata "max"))
          | .string => some (.strC s (findAssoc raw.metadata "min")
              (findAssoc raw.metadata "max") (findAssoc raw.metadata "enum")
              ((raw.pattern).getD "^.*"))
          | .timestamp => some (.tsC s ((raw.tsFormat).getD "unixTimestamp"))
          | .list =>
              match raw.member with
              | none => none
              | some m =>
                  match canonicalForm schema fuel m with
                  | none => none
                  | some c => some (.listC s c)
          | .map =>
              match raw.key, raw.value with
              | some k, some v =>
                  match canonicalForm schema fuel k,
                        canonicalForm schema fuel v with
                  | some ck, some cv => some (.mapC s ck cv)
                  | _, _ => none
              | _, _ => none

/-- The builder state: the allocation counter (object identity), the
transient `silhouettes` memo, and the permanent canonical table `𝕊`. -/
structure BuildState where
  nextId : Nat
  inflight : List (Sil × Nat)
  canon : List (CanForm × Nat)

/-- A fresh `ShapeDomain`. -/
def BuildState.init : BuildState := ⟨0, [], []⟩

/-- Deleting the transient silhouette entry (`del self.silhouettes[…]`). -/
def dropSil (l : List (Sil × Nat)) (s : Sil) : List (Sil × Nat) :=
  l.eraseP (fun p => decide (p.1 = s))

mutual

/-- `ShapeDomain.__getitem__`, fuelled: allocate an instance, return the
in-flight instance on a silhouette hit, otherwise register the silhouette,
resolve the referenced raw shapes recursively, delete the silhouette
entry, and install/return under the canonical form. -/
def getShape (schema : List (String × RawShape)) :
    Nat → BuildState → String → Option (BuildState × Nat)
  | 0, _, _ => none
  | fuel + 1, st, n =>
      match findAssoc schema n with
      | none => none
      | some raw =>
          let s := sil n raw
          let id := st.nextId
          let st₁ : BuildState := ⟨st.nextId + 1, st.inflight, st.canon⟩
          match findAssoc st₁.inflight s with
          | some j => some (st₁, j)
          | none =>
              let st₂ : BuildState := ⟨st₁.nextId, (s, id) :: st₁.inflight,
                st₁.canon⟩
              match resolveRefs schema fuel st₂ raw.refs with
              | none => none
              | some st₃ =>
                  let st₄ : BuildState := ⟨st₃.nextId,
                    dropSil st₃.inflight s, st₃.canon⟩
                  match canonicalForm schema (schema.length + 1) n with
                  | none => none
                  | some c =>
                      match findAssoc st₄.canon c with
                      | some j => some (st₄, j)
                      | none =>
                          some (⟨st₄.nextId, st₄.inflight,
                            (c, id) :: st₄.canon⟩, id)
termination_by fuel st n => (fuel, 0)

/-- `build()`'s recursive resolution of the referenced raw shapes, in
order, threading the builder state. -/
def resolveRefs (schema : List (String × RawShape)) :
    Nat → BuildState → List String → Option BuildState
  | _, st, [] => some st
  | fuel, st, r :: rs =>
      match getShape schema fuel st r with
      | none => none
      | some (st', _) => resolveRefs schema fuel st' rs
termination_by fuel st rs => (fuel, rs.length + 1)

end

/-- The number of schema entries whose silhouette is not currently in the
transient memo — the measure bounding the recursion depth of
`ShapeDomain.__getitem__`. -/
def freeCount (schema : List (String × RawShape))
    (infl : List (Sil × Nat)) : Nat :=
  (schema.filter (fun p => (findAssoc infl (sil p.1 p.2)).isNone)).length

/-- A directly self-referential structure schema, mirroring the
`ce.Expression` shape called out in the source: `Expr` is a structure both
of whose members are `Expr` itself. -/
def cyclicSchema : List (String × RawShape) :=
  [("Expr", ⟨ShapeTag.struct, [], [("And", "Expr"), ("Not", "Expr")],
    none, none, none, none, none⟩)]

/-! # Theorems -/

mutual

theorem Value.beq_refl : ∀ v : Value, Value.beq v v = true
  | .str a => by simp [Value.beq]
  | .int a => by simp [Value.beq]
  | .bool a => by simp [Value.beq]
  | .list xs => by simpa [Value.beq] using Value.beqList_refl xs
  | .dict xs => by simpa [Value.beq] using Value.beqKVs_refl xs

theorem Value.beqList_refl : ∀ xs : List Value, Value.beqList xs xs = true
  | [] => by simp [Value.beqList]
  | x :: xs => by
      simp [Value.beqList, Value.beq_refl x, Value.beqList_refl xs]

theorem Value.beqKVs_refl :
    ∀ xs : List (String × Value), Value.beqKVs xs xs = true
  | [] => by simp [Value.beqKVs]
  | (k, v) :: xs => by
      simp [Value.beqKVs, Value.beq_refl v, Value.beqKVs_refl xs]

end

theorem findAssoc_setAssoc_self {α β : Type} [DecidableEq α]
    (m : List (α × β)) (k : α) (v : β) : findAssoc (setAssoc m k v) k = some v := by
  induction m with
  | nil => simp [setAssoc, findAssoc]
  | cons kv rest ih =>
      by_cases h : k = kv.1
      · simp [setAssoc, findAssoc, h]
      · simp [setAssoc, findAssoc, h, ih]

theorem findAssoc_setAssoc_ne {α β : Type} [DecidableEq α]
    (m : List (α × β)) (k k' : α) (v : β) (h : k ≠ k') :
    findAssoc (setAssoc m k' v) k = findAssoc m k := by
  induction m with
  | nil => simp [setAssoc, findAssoc, h]
  | cons kv rest ih =>
      by_cases h' : k' = kv.1
      · have hk : k ≠ kv.1 := h' ▸ h
        simp [setAssoc, findAssoc, h', hk]
      · by_cases h'' : k = kv.1 <;> simp [setAssoc, findAssoc, h', h'', ih]

theorem setAssoc_self {α β : Type} [DecidableEq α]
    (m : List (α × β)) (k : α) (v : β) (h : findAssoc m k = some v) :
    setAssoc m k v = m := by
  induction m with
  | nil => simp [findAssoc] at h
  | cons kv rest ih =>
      by_cases h' : k = kv.1
      · simp [findAssoc, h'] at h
        simp [setAssoc, h', ← h]
      · simp [findAssoc, h'] at h
        simp [setAssoc, h', ih h]

/-! ## C10 — the two `labeled_product` implementations -/

/-- C10 counterexample: on the empty input dict with `include_empty` set,
the v1 `labeled_product` yields the empty map twice (once from
`itertools.product` of no iterables, once from its extra yield, guarded by
`len(values) == 0`), while the v2 one yields it exactly once (its extra
yield is guarded by `iterables != dict()`) — so the two implementations
are not extensionally equal. -/
theorem labeled_product_v1_v2_disagree :
    V1Util.labeled_product [] true = [[], []] ∧
    V2Util.labeled_product [] true = [[]] ∧
    V1Util.labeled_product [] true ≠ V2Util.labeled_product [] true := by
  refine ⟨rfl, rfl, ?_⟩
  simp [V1Util.labeled_product, V2Util.labeled_product, pyProduct]

/-- C10 amended: the two implementations agree whenever `include_empty` is
false (both are exactly the labeled `itertools.product`); with
`include_empty` true they differ exactly in the extra empty map — v1
appends it when the input dict is empty (emitting the empty map twice in
total), v2 appends it when the input dict is non-empty. -/
theorem labeled_product_agreement (it : List (String × List Value)) :
    V1Util.labeled_product it false = V2Util.labeled_product it false ∧
    V1Util.labeled_product it true =
      ((pyProduct (it.map (·.2))).map (fun p => (it.map (·.1)).zip p)) ++
        (if it.isEmpty then [[]] else []) ∧
    V2Util.labeled_product it true =
      ((pyProduct (it.map (·.2))).map (fun p => (it.map (·.1)).zip p)) ++
        (if it.isEmpty then [] else [[]]) := by
  refine ⟨?_, ?_, ?_⟩ <;>
    cases it <;> simp [V1Util.labeled_product, V2Util.labeled_product]

/-! ## C9 — page merging -/

theorem findAssoc_eq_none {α β : Type} [DecidableEq α]
    (l : List (α × β)) (k : α) (h : k ∉ l.map (·.1)) : findAssoc l k = none := by
  induction l with
  | nil => rfl
  | cons kv rest ih =>
      simp only [List.map_cons, List.mem_cons, not_or] at h
      rw [findAssoc, if_neg h.1, ih h.2]

theorem cduStep_find_ne (first : List (String × Value)) (k' : String)
    (v' : Value) (k : String) (h : k ≠ k') :
    findAssoc (cduStep first k' v') k = findAssoc first k := by
  unfold cduStep
  split <;> exact findAssoc_setAssoc_ne _ _ _ _ h

theorem careful_dict_update_notin (second : List (String × Value)) :
    ∀ (first : List (String × Value)) (k : String),
      k ∉ second.map (·.1) →
      findAssoc (careful_dict_update first second) k = findAssoc first k := by
  induction second with
  | nil => intro first k _; rfl
  | cons kv rest ih =>
      intro first k hk
      obtain ⟨k', v'⟩ := kv
      simp only [List.map_cons, List.mem_cons, not_or] at hk
      rw [careful_dict_update, ih _ k hk.2, cduStep_find_ne _ _ _ _ hk.1]

/-- C9: the paginated branch of `Operation.call` merges pages by folding
`careful_dict_update` from the empty dict, and one merge step is, for
every key: absent from the incoming page — the accumulated value is kept;
present with both the accumulated and the incoming values lists —
concatenation; present in every other case — the incoming value
overwrites (last write wins). -/
theorem careful_dict_update_merge (pages : List (List (String × Value)))
    (first second : List (String × Value)) (k : String)
    (hnd : (second.map (·.1)).Nodup) :
    Operation.call_paginated pages = pages.foldl careful_dict_update [] ∧
    findAssoc (careful_dict_update first second) k =
      (match findAssoc second k, findAssoc first k with
       | none, old => old
       | some (Value.list ys), some (Value.list xs) =>
           some (Value.list (xs ++ ys))
       | some v, _ => some v) := by
  refine ⟨rfl, ?_⟩
  induction second generalizing first with
  | nil => rfl
  | cons kv rest ih =>
      obtain ⟨k', v'⟩ := kv
      simp only [List.map_cons, List.nodup_cons] at hnd
      obtain ⟨hk', hrest⟩ := hnd
      by_cases h : k = k'
      · subst h
        have hrn : findAssoc rest k = none := findAssoc_eq_none rest k hk'
        rw [careful_dict_update, careful_dict_update_notin rest _ k hk']
        rw [findAssoc, if_pos rfl]
        rcases hf : findAssoc first k with _ | x
        · cases v' <;> simp [cduStep, hf, findAssoc_setAssoc_self]
        · cases x <;> cases v' <;> simp [cduStep, hf, findAssoc_setAssoc_self]
      · rw [careful_dict_update, ih _ hrest]
        rw [findAssoc, if_neg h, cduStep_find_ne _ _ _ _ h]

/-- C9 witness: merging `{"A": [2]}` into `{"A": [1]}` concatenates the
lists stored at `"A"`. -/
theorem careful_dict_update_merge_witness :
    (([("A", Value.list [Value.int 2])].map (·.1)).Nodup) ∧
    findAssoc (careful_dict_update [("A", Value.list [Value.int 1])]
        [("A", Value.list [Value.int 2])]) "A" =
      some (Value.list [Value.int 1, Value.int 2]) := by
  refine ⟨by simp, ?_⟩
  have h := careful_dict_update_merge [] [("A", Value.list [Value.int 1])]
    [("A", Value.list [Value.int 2])] "A" (by simp)
  simpa [findAssoc] using h.2

/-! ## C6 — dedup idempotence of leaf manifestation -/

theorem Pool.hset_add_add (xs : List Value) (v : Value) :
    ((Pool.hset xs).add v).add v = (Pool.hset xs).add v := by
  by_cases h : xs.any (fun x => Value.beq x v)
  · simp [Pool.add, h]
  · simp only [Pool.add, h, Bool.false_eq_true, if_false]
    rw [if_pos]
    simp [List.any_append, Value.beq_refl]

/-- Unfolding `Universe.spawn` at a known dimension dict and species
pool. -/
theorem Universe.spawn_spec (u : Universe) (dk : DimKey) (sp : String)
    (v : Value) (h : Bool) (dim : List (String × Pool)) (pool : Pool)
    (hdim : (findAssoc u.dims dk).getD [] = dim)
    (hp : (match findAssoc dim sp with
           | some p => p
           | none => if h then Pool.hset [] else Pool.plist []) = pool) :
    u.spawn dk sp v h = ⟨setAssoc u.dims dk (setAssoc dim sp (pool.add v))⟩ := by
  subst hdim
  subst hp
  rfl

/-- C6: manifesting a leaf value twice with equal structural hash in the
same dimension stores exactly one entity.  For the `Universe.spawn` store
(a `set` pool for hashable leaf species) the second spawn of the same
value is a no-op; for the `Domain` entity store, whose `Entity.__eq__` and
`__hash__` both reduce to `Entity.hash` of the image, a second `manifest`
of any image with the same structural hash is a no-op; and a manifest into
an empty store stores exactly the one entity. -/
theorem spawn_manifest_dedup (u : Universe) (dk : DimKey) (sp : String)
    (v w : Value) (d : PyDomain)
    (hpool : ∀ xs, findAssoc ((findAssoc u.dims dk).getD []) sp ≠
      some (Pool.plist xs))
    (hhash : entityHash v = entityHash w) :
    ((u.spawn dk sp v true).spawn dk sp v true = u.spawn dk sp v true) ∧
    ((d.manifest v).manifest w = d.manifest v) ∧
    (PyDomain.manifest ⟨[]⟩ v = ⟨[v]⟩) := by
  refine ⟨?_, ?_, rfl⟩
  · obtain ⟨xs₀, hx⟩ : ∃ xs,
        (match findAssoc ((findAssoc u.dims dk).getD []) sp with
         | some p => p
         | none => if true then Pool.hset [] else Pool.plist []) =
          Pool.hset xs := by
      cases hfp : findAssoc ((findAssoc u.dims dk).getD []) sp with
      | none => exact ⟨[], by simp⟩
      | some p =>
          cases p with
          | hset ys => exact ⟨ys, by simp⟩
          | plist ys => exact absurd hfp (hpool ys)
    have hu₁ := Universe.spawn_spec u dk sp v true
      ((findAssoc u.dims dk).getD []) (Pool.hset xs₀) rfl hx
    have hdim₁ : (findAssoc (u.spawn dk sp v true).dims dk).getD [] =
        setAssoc ((findAssoc u.dims dk).getD []) sp ((Pool.hset xs₀).add v) := by
      rw [hu₁]
      show (findAssoc (setAssoc u.dims dk _) dk).getD [] = _
      rw [findAssoc_setAssoc_self]
      rfl
    have hp₁ : (match findAssoc (setAssoc ((findAssoc u.dims dk).getD [])
            sp ((Pool.hset xs₀).add v)) sp with
         | some p => p
         | none => if true then Pool.hset [] else Pool.plist []) =
        (Pool.hset xs₀).add v := by
      rw [findAssoc_setAssoc_self]
    have hu₂ := Universe.spawn_spec (u.spawn dk sp v true) dk sp v true
      _ _ hdim₁ hp₁
    rw [hu₂, Pool.hset_add_add]
    have hfix₁ : setAssoc (setAssoc ((findAssoc u.dims dk).getD []) sp
        ((Pool.hset xs₀).add v)) sp ((Pool.hset xs₀).add v) =
        setAssoc ((findAssoc u.dims dk).getD []) sp ((Pool.hset xs₀).add v) :=
      setAssoc_self _ _ _ (findAssoc_setAssoc_self _ _ _)
    rw [hfix₁]
    have hfind₂ : findAssoc (u.spawn dk sp v true).dims dk =
        some (setAssoc ((findAssoc u.dims dk).getD []) sp
          ((Pool.hset xs₀).add v)) := by
      rw [hu₁]
      exact findAssoc_setAssoc_self _ _ _
    have hfix₂ := setAssoc_self _ _ _ hfind₂
    rw [hfix₂]
  · unfold PyDomain.manifest
    by_cases h : d.entities.any (fun e => entityHash e == entityHash v)
    · have h' : d.entities.any (fun e => entityHash e == entityHash w) := by
        rw [← hhash]; exact h
      simp [h, h']
    · simp only [h, Bool.false_eq_true, if_false]
      have h' : (d.entities ++ [v]).any
          (fun e => entityHash e == entityHash w) = true := by
        rw [List.any_append]
        simp [← hhash]
      simp [h', h]

/-- C6 witness: twice spawning the leaf string `"x"` into the fresh
universe, and twice manifesting images with equal structural hash into an
empty domain. -/
theorem spawn_manifest_dedup_witness :
    (∀ xs, findAssoc ((findAssoc Universe.empty.dims (DimKey.dim "svc")).getD
        []) "S" ≠ some (Pool.plist xs)) ∧
    ((Universe.empty.spawn (DimKey.dim "svc") "S" (Value.str "x") true).spawn
        (DimKey.dim "svc") "S" (Value.str "x") true =
      Universe.empty.spawn (DimKey.dim "svc") "S" (Value.str "x") true) := by
  have hpool : ∀ xs, findAssoc ((findAssoc Universe.empty.dims
      (DimKey.dim "svc")).getD []) "S" ≠ some (Pool.plist xs) := by
    intro xs
    simp [Universe.empty, findAssoc]
  exact ⟨hpool, (spawn_manifest_dedup Universe.empty (DimKey.dim "svc") "S"
    (Value.str "x") (Value.str "x") ⟨[]⟩ hpool rfl).1⟩

/-! ## C8 — leaf and string candidate construction -/

/-- C8 counterexample: a String shape with no declared enum and no known
domain values does not return the (empty) sequence of known values — it
returns Python `None`, because the `"enum" in self.constraints` test is
always true and `self.constraints["enum"]` is `None`. -/
theorem string_construct_counterexample :
    VShape.construct "svc" Universe.empty (VShape.strshape "S" none) =
      .ok none ∧
    Universe.empty.images (DimKey.dim "svc") "S" = [] ∧
    VShape.construct "svc" Universe.empty (VShape.strshape "S" none) ≠
      .ok (some (Universe.empty.images (DimKey.dim "svc") "S")) := by
  refine ⟨rfl, rfl, ?_⟩
  intro h
  rw [show Universe.empty.images (DimKey.dim "svc") "S" = [] from rfl] at h
  have : (none : Option (List Value)) = some [] := by
    have h' := h
    rw [show VShape.construct "svc" Universe.empty (VShape.strshape "S" none)
        = .ok none from rfl] at h'
    exact Except.ok.inj h'
  exact Option.noConfusion this

/-- C8 amended: a non-String leaf shape's `construct` returns exactly the
values known in the domain (current dimension plus the `All` dimension);
a String shape returns the known values when there are any; with no known
values it returns the declared enum's literal values when an enum is
declared, and Python `None` (not the empty sequence) when no enum is
declared. -/
theorem leaf_string_construct_spec (svc nm : String) (u : Universe)
    (enum : Option (List String)) :
    (VShape.construct svc u (VShape.leaf nm) =
      .ok (some (u.images (DimKey.dim svc) nm))) ∧
    (u.images (DimKey.dim svc) nm ≠ [] →
      VShape.construct svc u (VShape.strshape nm enum) =
        .ok (some (u.images (DimKey.dim svc) nm))) ∧
    (∀ es, u.images (DimKey.dim svc) nm = [] → enum = some es →
      VShape.construct svc u (VShape.strshape nm enum) =
        .ok (some (es.map Value.str))) ∧
    (u.images (DimKey.dim svc) nm = [] → enum = none →
      VShape.construct svc u (VShape.strshape nm enum) = .ok none) := by
  have hstr : VShape.construct svc u (VShape.strshape nm enum) =
      (if (u.images (DimKey.dim svc) nm).isEmpty then
        (match enum with
         | some es => Except.ok (some (es.map Value.str))
         | none => Except.ok none)
       else Except.ok (some (u.images (DimKey.dim svc) nm))) := rfl
  have hlf : VShape.construct svc u (VShape.leaf nm) =
      (if (u.images (DimKey.dim svc) nm).isEmpty then Except.ok (some [])
       else Except.ok (some (u.images (DimKey.dim svc) nm))) := rfl
  refine ⟨?_, ?_, ?_, ?_⟩
  · rw [hlf]
    cases hE : u.images (DimKey.dim svc) nm with
    | nil => simp
    | cons a as => simp
  · intro h
    have h0 : (u.images (DimKey.dim svc) nm).isEmpty = false := by
      cases hE : u.images (DimKey.dim svc) nm with
      | nil => exact absurd hE h
      | cons a as => rfl
    rw [hstr, h0]
    simp
  · intro es h he
    rw [hstr, he, h]
    rfl
  · intro h he
    rw [hstr, he, h]
    rfl

/-- C8 witness: the three String behaviors at concrete inputs — known
value wins over the enum, enum fallback on an empty pool, `None` with no
enum and an empty pool. -/
theorem leaf_string_construct_spec_witness :
    ((Universe.empty.spawn (DimKey.dim "svc") "S" (Value.str "x")
        true).images (DimKey.dim "svc") "S" = [Value.str "x"]) ∧
    (VShape.construct "svc"
        (Universe.empty.spawn (DimKey.dim "svc") "S" (Value.str "x") true)
        (VShape.strshape "S" (some ["E"])) = .ok (some [Value.str "x"])) ∧
    (VShape.construct "svc" Universe.empty
        (VShape.strshape "S" (some ["E1", "E2"])) =
      .ok (some [Value.str "E1", Value.str "E2"])) ∧
    (VShape.construct "svc" Universe.empty (VShape.strshape "S" none) =
      .ok none) := by
  have h1 : (Universe.empty.spawn (DimKey.dim "svc") "S" (Value.str "x")
      true).images (DimKey.dim "svc") "S" = [Value.str "x"] := rfl
  refine ⟨h1, ?_, ?_, ?_⟩
  · have h2 := (leaf_string_construct_spec "svc" "S"
        (Universe.empty.spawn (DimKey.dim "svc") "S" (Value.str "x") true)
        (some ["E"])).2.1 (by rw [h1]; exact List.cons_ne_nil _ _)
    rw [h1] at h2
    exact h2
  · exact (leaf_string_construct_spec "svc" "S" Universe.empty
      (some ["E1", "E2"])).2.2.1 ["E1", "E2"] rfl rfl
  · exact (leaf_string_construct_spec "svc" "S" Universe.empty
      none).2.2.2 rfl rfl

/-! ## C1 — required members always present -/

theorem pyProduct_length (vss : List (List Value)) :
    ∀ p ∈ pyProduct vss, p.length = vss.length := by
  induction vss with
  | nil => intro p hp; simp [pyProduct] at hp; simp [hp]
  | cons vs rest ih =>
      intro p hp
      simp only [pyProduct, List.mem_flatMap, List.mem_map] at hp
      obtain ⟨v, _, q, hq, rfl⟩ := hp
      simp [ih q hq]

/-- Every map of the labeled product over a non-empty parameter dict
carries exactly the dict's keys; the v1 extra empty map appears only when
the dict itself is empty. -/
theorem labeled_product_keys (it : List (String × List Value)) (ie : Bool) :
    ∀ m ∈ V1Util.labeled_product it ie,
      m.map (·.1) = it.map (·.1) ∨ (m = [] ∧ it = []) := by
  intro m hm
  simp only [V1Util.labeled_product, List.mem_append, List.mem_map] at hm
  rcases hm with ⟨p, hp, rfl⟩ | hm
  · left
    have hlen : p.length = (it.map (·.2)).length := pyProduct_length _ p hp
    rw [List.map_fst_zip]
    rw [hlen, List.length_map, List.length_map]
  · right
    split at hm
    next hcond =>
      simp only [List.mem_singleton] at hm
      have h2 := (Bool.and_eq_true _ _).mp hcond
      cases it with
      | nil => exact ⟨hm, rfl⟩
      | cons a as => simp at h2
    next => simp at hm

/-- C1: every candidate parameter map yielded by v1 `Request.construct`
(when it returns instead of raising) and every candidate map yielded by v2
`Structure.reap` contains every required member name among its keys. -/
theorem construct_yields_required (svc shapeName : String)
    (members : List (String × VShape)) (required : List String)
    (u : Universe) (maps : List (List (String × Value)))
    (h : Request.construct svc shapeName members required u = .ok maps)
    (membersV2 : List (String × List Value)) (ie : Bool) :
    (∀ m ∈ maps, ∀ r ∈ required, r ∈ m.map (·.1)) ∧
    (∀ m ∈ StructureV2.reap membersV2 required ie, ∀ r ∈ required,
      r ∈ m.map (·.1)) := by
  constructor
  · unfold Request.construct at h
    rcases hcm : VShape.constructMembers svc u members with e | params₀
    · rw [hcm] at h; exact absurd h (by simp)
    · rw [hcm] at h
      simp only at h
      set params := params₀.filterMap
        (fun p => p.2.map (fun xs => (p.1, xs))) with hparams
      rcases hreq : required.all
          (fun r => (params.map (·.1)).contains r) with _ | _
      · rw [hreq] at h; exact absurd h (by simp)
      · rw [hreq, if_pos rfl] at h
        have h := Except.ok.inj h
        subst h
        intro m hm r hr
        rcases labeled_product_keys params required.isEmpty m hm with
          hk | ⟨hm0, hp0⟩
        · rw [hk]
          have := List.all_eq_true.mp hreq r hr
          simpa using this
        · rw [hp0] at hreq
          have := List.all_eq_true.mp hreq r hr
          simp [List.contains] at this
  · intro m hm r hr
    unfold StructureV2.reap at hm
    rw [List.mem_filter] at hm
    have := List.all_eq_true.mp hm.2 r hr
    simpa using this

/-- C1 witness: a concrete request shape with one required member over a
domain holding one value. -/
theorem construct_yields_required_witness :
    (Request.construct "svc" "Req" [("Name", VShape.leaf "NameShape")]
        ["Name"]
        (Universe.empty.spawn (DimKey.dim "svc") "NameShape" (Value.str "a")
          true) = .ok [[("Name", Value.str "a")]]) ∧
    (∀ m ∈ [[("Name", Value.str "a")]], ∀ r ∈ ["Name"],
      r ∈ m.map (·.1)) := by
  constructor
  · rfl
  · exact (construct_yields_required "svc" "Req"
      [("Name", VShape.leaf "NameShape")] ["Name"]
      (Universe.empty.spawn (DimKey.dim "svc") "NameShape" (Value.str "a")
        true) [[("Name", Value.str "a")]] rfl [] false).1

/-! ## C2 — the Name/Tags scenario crashes in v1 -/

/-- C2: on the spec's scenario — structure `{required: ["Name"], members:
{Name: string, Tags: list<string>}}`, domain holding `"a"`, `"b"` for
`Name` and nothing for `Tags` or its element shape — v1
`Request.construct` raises `TypeError`: the `Tags` element string shape
returns `None` (empty pool, no enum) and `List.construct` calls
`list(None)`.  The scenario therefore does not yield the two claimed
candidate maps. -/
theorem scenario_name_tags_typeerror :
    Request.construct "svc" "Req"
      [("Name", VShape.strshape "NameShape" none),
       ("Tags", VShape.listshape "TagsShape" (VShape.strshape "TagString"
         none))]
      ["Name"]
      ((Universe.empty.spawn (DimKey.dim "svc") "NameShape" (Value.str "a")
          true).spawn (DimKey.dim "svc") "NameShape" (Value.str "b") true)
      = .error .typeError ∧
    (Except.error PyErr.typeError :
        Except PyErr (List (List (String × Value)))) ≠
      .ok [[("Name", Value.str "a")], [("Name", Value.str "b")]] := by
  exact ⟨rfl, by simp⟩

/-! ## C7 — the empty-required empty-map guarantee fails in v1 -/

/-- C7: two evaluations refuting the claim on the v1 code.  First, a
request shape with no required members and one optional list member whose
pool is non-empty constructs exactly one candidate — the empty map is not
among the candidates, because `labeled_product` only adds the extra empty
dict when the parameter dict itself is empty.  Second, a request shape
with no required members and one non-String leaf member with an empty pool
constructs an empty candidate sequence (the member contributes `[]`, which
annihilates `itertools.product`), so a starter's candidate sequence can be
empty. -/
theorem empty_required_candidates :
    (Request.construct "svc" "Req"
        [("Tags", VShape.listshape "TagsShape" (VShape.strshape "TagString"
          none))]
        []
        (Universe.empty.spawn (DimKey.dim "svc") "TagString" (Value.str "a")
          true)
      = .ok [[("Tags", Value.list [Value.str "a"])]]) ∧
    ([] ∉ [[("Tags", Value.list [Value.str "a"])]]) ∧
    (Request.construct "svc" "Req" [("Count", VShape.leaf "CountShape")] []
        Universe.empty = .ok []) := by
  refine ⟨rfl, ?_, rfl⟩
  simp

/-! ## C3 — starters and non-fatal failures -/

/-- C3 counterexample: one starter whose every invocation raises an
allow-listed failure kind.  The failure does not propagate and every call
yields no response, but the starter is NOT removed from pending — the code
removes a starter only under `if success:` — so the pending set after the
starter phase is `[op]`, not the empty set the claim requires, and the
operation is attempted again by the fixpoint loop. -/
theorem starter_failure_not_removed :
    starterPhase (fun _ d => d)
      [⟨"OpY", [[]], fun _ => Except.error "Kind", ["Kind"]⟩]
      [⟨"OpY", [[]], fun _ => Except.error "Kind", ["Kind"]⟩] ⟨[]⟩ =
      .ok (⟨[]⟩, [⟨"OpY", [[]], fun _ => Except.error "Kind", ["Kind"]⟩]) ∧
    ([(⟨"OpY", [[]], fun _ => Except.error "Kind", ["Kind"]⟩ : SchedOp)] ≠
      ([] : List SchedOp)) := by
  exact ⟨rfl, by simp⟩

/-- C3 amended: when every candidate invocation of a starter raises an
allow-listed (non-fatal) failure kind, every wrapped call returns no
response and nothing propagates, the batch reports no success, and the
starter remains in the pending set (it is removed only when at least one
invocation produced a response), so it is subject to the later fixpoint
passes rather than being attempted exactly once. -/
theorem starter_allowed_failure_behavior
    (populate : Value → PyDomain → PyDomain) (op : SchedOp) (d : PyDomain)
    (pending : List SchedOp)
    (hfail : ∀ p ∈ op.candidates, ∃ e, op.call0 p = Except.error e ∧
      op.allowed.contains e) :
    (∀ p ∈ op.candidates, op.call p = .ok none) ∧
    starterBatch populate op d = .ok (d, false) ∧
    starterPhase populate [op] pending d = .ok (d, pending) := by
  have hcall : ∀ p ∈ op.candidates, op.call p = .ok none := by
    intro p hp
    obtain ⟨e, he, hal⟩ := hfail p hp
    rw [SchedOp.call, he]
    show (if op.allowed.contains e = true then
        (Except.ok none : Except String (Option Value))
      else Except.error e) = Except.ok none
    rw [if_pos hal]
  have hbatch : starterBatch populate op d = .ok (d, false) := by
    unfold starterBatch
    have : ∀ (cs : List (List (String × Value))),
        (∀ p ∈ cs, op.call p = .ok none) →
        cs.foldlM (fun (acc : PyDomain × Bool) params =>
          match op.call params with
          | Except.error e => Except.error e
          | Except.ok none => Except.ok acc
          | Except.ok (some v) => Except.ok (populate v acc.1, true))
          (d, false) = Except.ok (d, false) := by
      intro cs
      induction cs with
      | nil => intro _; rfl
      | cons c rest ih =>
          intro hcs
          rw [List.foldlM_cons, hcs c (List.mem_cons_self c rest)]
          exact ih (fun p hp => hcs p (List.mem_cons_of_mem c hp))
    exact this op.candidates hcall
  refine ⟨hcall, hbatch, ?_⟩
  unfold starterPhase
  rw [List.foldlM_cons, hbatch]
  rfl

/-- C3 witness for the amended behavior, at the counterexample's input. -/
theorem starter_allowed_failure_behavior_witness :
    (∀ p ∈ [([] : List (String × Value))], ∃ e,
      (fun (_ : List (String × Value)) =>
        Except.error (ε := String) (α := Value) "Kind") p = Except.error e ∧
      (["Kind"] : List String).contains e) ∧
    starterPhase (fun _ d => d)
      [⟨"OpY", [[]], fun _ => Except.error "Kind", ["Kind"]⟩]
      [⟨"OpY", [[]], fun _ => Except.error "Kind", ["Kind"]⟩] ⟨[]⟩ =
      .ok (⟨[]⟩, [⟨"OpY", [[]], fun _ => Except.error "Kind", ["Kind"]⟩]) := by
  have hfail : ∀ p ∈ [([] : List (String × Value))], ∃ e,
      (fun (_ : List (String × Value)) =>
        Except.error (ε := String) (α := Value) "Kind") p = Except.error e ∧
      (["Kind"] : List String).contains e := by
    intro p _
    exact ⟨"Kind", rfl, by decide⟩
  exact ⟨hfail, (starter_allowed_failure_behavior (fun _ d => d)
    ⟨"OpY", [[]], fun _ => Except.error "Kind", ["Kind"]⟩ ⟨[]⟩
    [⟨"OpY", [[]], fun _ => Except.error "Kind", ["Kind"]⟩] hfail).2.2⟩

/-! ## C4 — monotonicity and termination of the fixpoint loop -/

theorem runPass_no_success {σ : Type} (attempt : σ → SchedOp → σ × Bool) :
    ∀ (rest : List SchedOp) (st : σ) (succ : List SchedOp) (st' : σ)
      (succ' : List SchedOp),
      runPass attempt st succ rest = .ok (st', succ') → succ' = succ := by
  intro rest
  induction rest with
  | nil =>
      intro st succ st' succ' h
      have h' := Except.ok.inj h
      rw [Prod.mk.injEq] at h'
      exact h'.2.symm
  | cons op rest ih =>
      intro st succ st' succ' h
      rw [runPass] at h
      by_cases hc : (attempt st op).2
      · rw [if_pos hc] at h
        exact absurd h (by simp)
      · rw [if_neg hc] at h
        exact ih _ _ _ _ h

/-- C4: the fixpoint loop of src/grump.py cannot iterate.  `Operation`
(shapes.py line 296) defines `__eq__` without `__hash__`, so its
instances are unhashable and `successes.add(rop)` (grump.py line 77)
raises `TypeError` on the first harvested response; only
`InsufficientMembersException` is caught, so a pending operation that
resolves aborts the run mid-pass instead of being removed after the
pass.  Concretely, a single resolvable pending operation yields the
uncaught `TypeError`; and in general every normal exit of the loop is
reached after at most one pass — a completed pass always carries the
empty success set, so the loop breaks — with the pending list unchanged:
the pass-over-pass monotone removal the claim describes never happens. -/
theorem fixLoop_typeerror_aborts :
    (fixLoop (fun (st : Unit) _ => (st, true)) 2 ()
        [⟨"ListTables", [[]], fun _ => Except.ok (Value.str "resp"), []⟩] =
      some (.error .typeError)) ∧
    (∀ {σ : Type} (attempt : σ → SchedOp → σ × Bool) (fuel : Nat) (st : σ)
       (pending : List SchedOp) (st' : σ) (p' : List SchedOp) (n : Nat),
       fixLoop attempt (fuel + 1) st pending = some (.ok (st', p', n)) →
       p' = pending ∧ n ≤ 1 ∧ n ≤ pending.length) := by
  constructor
  · rfl
  · intro σ attempt fuel st pending st' p' n h
    have hunf : fixLoop attempt (fuel + 1) st pending =
        (if pending.isEmpty then some (.ok (st, pending, 0))
         else
           match runPass attempt st [] pending with
           | .error e => some (.error e)
           | .ok (st₁, succ) =>
               if succ.isEmpty then
                 some (.ok (st₁, removeAll pending succ, 1))
               else
                 match fixLoop attempt fuel st₁ (removeAll pending succ) with
                 | none => none
                 | some (.error e) => some (.error e)
                 | some (.ok (st₂, p₂, m)) => some (.ok (st₂, p₂, m + 1))) :=
      rfl
    rw [hunf] at h
    by_cases hp : pending.isEmpty
    · rw [if_pos hp] at h
      have h' := Option.some.inj h
      have h'' := Except.ok.inj h'
      rw [Prod.mk.injEq, Prod.mk.injEq] at h''
      refine ⟨h''.2.1.symm, ?_, ?_⟩ <;> omega
    · rw [if_neg hp] at h
      split at h
      · exact absurd (Option.some.inj h) (by simp)
      · rename_i st₁ succ hr
        have hsucc : succ = [] :=
          runPass_no_success attempt pending st [] st₁ succ hr
        subst hsucc
        have h₂ : some (Except.ok (st₁, removeAll pending [], 1)) =
            some (Except.ok (st', p', n)) := h
        have h' := Except.ok.inj (Option.some.inj h₂)
        rw [Prod.mk.injEq, Prod.mk.injEq] at h'
        have hp1 : p' = removeAll pending [] := h'.2.1.symm
        have hn : n = 1 := h'.2.2.symm
        have hlen : 1 ≤ pending.length := by
          cases pending with
          | nil => simp at hp
          | cons a as => simp
        exact ⟨hp1, by omega, by omega⟩

/-- C4 witness: a one-operation pending list whose attempt produces no
response completes its single pass and exits with the operation still
pending. -/
theorem fixLoop_typeerror_aborts_witness :
    (fixLoop (fun (st : Unit) _ => (st, false)) 2 ()
        [⟨"ListTables", [[]], fun _ => Except.error "Denied", ["Denied"]⟩] =
      some (.ok ((),
        [⟨"ListTables", [[]], fun _ => Except.error "Denied", ["Denied"]⟩],
        1))) ∧
    ([⟨"ListTables", [[]], fun _ => Except.error "Denied", ["Denied"]⟩] =
        [(⟨"ListTables", [[]], fun _ => Except.error "Denied",
          ["Denied"]⟩ : SchedOp)] ∧
      1 ≤ 1 ∧ 1 ≤
        [(⟨"ListTables", [[]], fun _ => Except.error "Denied",
          ["Denied"]⟩ : SchedOp)].length) := by
  refine ⟨rfl, ?_⟩
  exact fixLoop_typeerror_aborts.2 (fun (st : Unit) _ => (st, false)) 1 ()
    [⟨"ListTables", [[]], fun _ => Except.error "Denied", ["Denied"]⟩] ()
    [⟨"ListTables", [[]], fun _ => Except.error "Denied", ["Denied"]⟩] 1 rfl

/-! ## C5 — cyclic shape graphs: termination and canonical sharing -/

theorem dropSil_cons (s : Sil) (i : Nat) (l : List (Sil × Nat)) :
    dropSil ((s, i) :: l) s = l := by
  rw [dropSil, List.eraseP_cons]
  simp

theorem getShape_zero (schema : List (String × RawShape)) (st : BuildState)
    (n : String) : getShape schema 0 st n = none := by
  rw [getShape]

theorem resolveRefs_nil (schema : List (String × RawShape)) (fuel : Nat)
    (st : BuildState) : resolveRefs schema fuel st [] = some st := by
  rw [resolveRefs]

theorem resolveRefs_cons (schema : List (String × RawShape)) (fuel : Nat)
    (st : BuildState) (r : String) (rs : List String) :
    resolveRefs schema fuel st (r :: rs) =
      (match getShape schema fuel st r with
       | none => none
       | some (st₁, _) => resolveRefs schema fuel st₁ rs) := by
  rw [resolveRefs]

/-- One-step unfolding of `getShape` at positive fuel, with the
intermediate states written out. -/
theorem getShape_succ (schema : List (String × RawShape)) (fuel : Nat)
    (st : BuildState) (n : String) :
    getShape schema (fuel + 1) st n =
      (match findAssoc schema n with
       | none => none
       | some raw =>
           match findAssoc st.inflight (sil n raw) with
           | some j => some (⟨st.nextId + 1, st.inflight, st.canon⟩, j)
           | none =>
               match resolveRefs schema fuel
                   ⟨st.nextId + 1, (sil n raw, st.nextId) :: st.inflight,
                     st.canon⟩ raw.refs with
               | none => none
               | some st₃ =>
                   match canonicalForm schema (schema.length + 1) n with
                   | none => none
                   | some c =>
                       match findAssoc st₃.canon c with
                       | some j =>
                           some (⟨st₃.nextId, dropSil st₃.inflight
                             (sil n raw), st₃.canon⟩, j)
                       | none =>
                           some (⟨st₃.nextId, dropSil st₃.inflight
                               (sil n raw),
                             (c, st.nextId) :: st₃.canon⟩, st.nextId)) := by
  rw [getShape]

mutual

/-- A completed `__getitem__` restores the transient silhouette memo
exactly and never overwrites an existing canonical-table entry. -/
theorem getShape_preserves (schema : List (String × RawShape)) :
    ∀ (fuel : Nat) (st : BuildState) (n : String) (st' : BuildState)
      (i : Nat), getShape schema fuel st n = some (st', i) →
      st'.inflight = st.inflight ∧
      (∀ c j, findAssoc st.canon c = some j → findAssoc st'.canon c = some j)
  | 0, st, n, st', i => by
      intro h
      rw [getShape_zero] at h
      exact absurd h (by simp)
  | fuel + 1, st, n, st', i => by
      intro h
      rw [getShape_succ] at h
      split at h
      · exact absurd h (by simp)
      · rename_i raw hraw
        split at h
        · rename_i j hinf
          have hp := Option.some.inj h
          rw [Prod.mk.injEq] at hp
          obtain ⟨h1, h2⟩ := hp
          subst h1
          exact ⟨rfl, fun c j' hj => hj⟩
        · rename_i hinf
          split at h
          · exact absurd h (by simp)
          · rename_i st₃ hres
            obtain ⟨hresi, hresc⟩ := resolveRefs_preserves schema fuel
              ⟨st.nextId + 1, (sil n raw, st.nextId) :: st.inflight,
                st.canon⟩ raw.refs st₃ hres
            split at h
            · exact absurd h (by simp)
            · rename_i c hcf
              split at h
              · rename_i j' hcan
                have hp := Option.some.inj h
                rw [Prod.mk.injEq] at hp
                obtain ⟨h1, h2⟩ := hp
                subst h1
                constructor
                · show dropSil st₃.inflight (sil n raw) = st.inflight
                  rw [hresi]
                  exact dropSil_cons _ _ _
                · intro c' j'' hj''
                  exact hresc c' j'' hj''
              · rename_i hcan
                have hp := Option.some.inj h
                rw [Prod.mk.injEq] at hp
                obtain ⟨h1, h2⟩ := hp
                subst h1
                constructor
                · show dropSil st₃.inflight (sil n raw) = st.inflight
                  rw [hresi]
                  exact dropSil_cons _ _ _
                · intro c' j'' hj''
                  show findAssoc ((c, st.nextId) :: st₃.canon) c' = some j''
                  have hj₃ := hresc c' j'' hj''
                  rw [findAssoc]
                  by_cases hcc : c' = c
                  · subst hcc
                    rw [hj₃] at hcan
                    exact absurd hcan (by simp)
                  · rw [if_neg hcc]
                    exact hj₃
termination_by fuel st n => (fuel, 0)

/-- `build()`'s reference resolution preserves the silhouette memo and
existing canonical-table entries. -/
theorem resolveRefs_preserves (schema : List (String × RawShape)) :
    ∀ (fuel : Nat) (st : BuildState) (refs : List String)
      (st' : BuildState), resolveRefs schema fuel st refs = some st' →
      st'.inflight = st.inflight ∧
      (∀ c j, findAssoc st.canon c = some j → findAssoc st'.canon c = some j)
  | fuel, st, [], st' => by
      intro h
      rw [resolveRefs_nil] at h
      have h' := Option.some.inj h
      rw [← h']
      exact ⟨rfl, fun c j hj => hj⟩
  | fuel, st, r :: rs, st' => by
      intro h
      rw [resolveRefs_cons] at h
      split at h
      · exact absurd h (by simp)
      · rename_i p st₁ i₁ hg
        obtain ⟨hgi, hgc⟩ := getShape_preserves schema fuel st r st₁ i₁ hg
        obtain ⟨hri, hrc⟩ := resolveRefs_preserves schema fuel st₁ rs st' h
        exact ⟨by rw [hri, hgi], fun c j hj => hrc c j (hgc c j hj)⟩
termination_by fuel st refs => (fuel, refs.length + 1)

end

/-- A completed non-in-flight `__getitem__` leaves the returned instance
registered in the canonical table under the shape's canonical form. -/
theorem getShape_canon_self (schema : List (String × RawShape)) (fuel : Nat)
    (st : BuildState) (n : String) (raw : RawShape) (c : CanForm)
    (st' : BuildState) (i : Nat)
    (hraw : findAssoc schema n = some raw)
    (hinf : findAssoc st.inflight (sil n raw) = none)
    (hcf : canonicalForm schema (schema.length + 1) n = some c)
    (h : getShape schema fuel st n = some (st', i)) :
    findAssoc st'.canon c = some i := by
  cases fuel with
  | zero =>
      rw [getShape_zero] at h
      exact absurd h (by simp)
  | succ f =>
      rw [getShape_succ] at h
      split at h
      · exact absurd h (by simp)
      · rename_i raw' hraw'
        have hr : raw' = raw := by
          rw [hraw] at hraw'
          exact (Option.some.inj hraw').symm
        subst hr
        split at h
        · rename_i j hinf'
          rw [hinf] at hinf'
          exact absurd hinf' (by simp)
        · rename_i hinf'
          split at h
          · exact absurd h (by simp)
          · rename_i st₃ hres
            split at h
            · exact absurd h (by simp)
            · rename_i c' hcf'
              have hc : c' = c := by
                rw [hcf] at hcf'
                exact (Option.some.inj hcf').symm
              subst hc
              split at h
              · rename_i j hcan
                have hp := Option.some.inj h
                rw [Prod.mk.injEq] at hp
                obtain ⟨h1, h2⟩ := hp
                subst h1
                subst h2
                exact hcan
              · rename_i hcan
                have hp := Option.some.inj h
                rw [Prod.mk.injEq] at hp
                obtain ⟨h1, h2⟩ := hp
                subst h1
                subst h2
                rw [findAssoc, if_pos rfl]

theorem findAssoc_mem {α β : Type} [DecidableEq α] :
    ∀ (l : List (α × β)) (k : α) (v : β),
      findAssoc l k = some v → (k, v) ∈ l := by
  intro l
  induction l with
  | nil => intro k v h; exact absurd h (by simp [findAssoc])
  | cons kv rest ih =>
      intro k v h
      rw [findAssoc] at h
      by_cases hk : k = kv.1
      · rw [if_pos hk] at h
        have hv := Option.some.inj h
        have hkv : (k, v) = kv := by rw [hk, ← hv]
        rw [hkv]
        exact List.mem_cons_self kv rest
      · rw [if_neg hk] at h
        exact List.mem_cons_of_mem _ (ih k v h)

theorem findAssoc_isSome_of_mem {α β : Type} [DecidableEq α] :
    ∀ (l : List (α × β)) (k : α), k ∈ l.map (·.1) →
      (findAssoc l k).isSome := by
  intro l
  induction l with
  | nil => intro k h; simp at h
  | cons kv rest ih =>
      intro k h
      rw [findAssoc]
      by_cases hk : k = kv.1
      · rw [if_pos hk]; rfl
      · rw [if_neg hk]
        simp only [List.map_cons, List.mem_cons] at h
        rcases h with h | h
        · exact absurd h hk
        · exact ih k h

theorem length_filter_mono {γ : Type} (l : List γ) (p q : γ → Bool)
    (himp : ∀ x ∈ l, q x = true → p x = true) :
    (l.filter q).length ≤ (l.filter p).length := by
  induction l with
  | nil => exact Nat.le_refl _
  | cons a l ih =>
      have ih' := ih (fun x hx => himp x (List.mem_cons_of_mem a hx))
      cases hq : q a with
      | true =>
          have hpa := himp a (List.mem_cons_self a l) hq
          simp [List.filter_cons, hq, hpa]
          all_goals omega
      | false =>
          cases hp : p a with
          | true =>
              simp [List.filter_cons, hq, hp]
              all_goals omega
          | false =>
              simp [List.filter_cons, hq, hp]
              all_goals omega

theorem length_filter_strict {γ : Type} (l : List γ) (p q : γ → Bool)
    (himp : ∀ x ∈ l, q x = true → p x = true) (x₀ : γ) (hx₀ : x₀ ∈ l)
    (hp₀ : p x₀ = true) (hq₀ : q x₀ = false) :
    (l.filter q).length < (l.filter p).length := by
  induction l with
  | nil => simp at hx₀
  | cons a l ih =>
      rcases List.mem_cons.mp hx₀ with h | h
      · subst h
        have := length_filter_mono l p q
          (fun x hx => himp x (List.mem_cons_of_mem x₀ hx))
        simp [List.filter_cons, hp₀, hq₀]
        all_goals omega
      · have ih' := ih (fun x hx => himp x (List.mem_cons_of_mem a hx)) h
        cases hq : q a with
        | true =>
            have hpa := himp a (List.mem_cons_self a l) hq
            simp [List.filter_cons, hq, hpa]
            all_goals omega
        | false =>
            cases hp : p a with
            | true =>
                simp [List.filter_cons, hq, hp]
                all_goals omega
            | false =>
                simp [List.filter_cons, hq, hp]
                all_goals omega

theorem sil_name (n n' : String) (raw raw' : RawShape)
    (h : sil n raw = sil n' raw') : n = n' := congrArg Prod.fst h

theorem freeCount_le (schema : List (String × RawShape))
    (infl : List (Sil × Nat)) : freeCount schema infl ≤ schema.length :=
  List.length_filter_le _ _

/-- Registering a fresh silhouette of a schema entry strictly shrinks the
count of schema entries whose silhouette is not in flight. -/
theorem freeCount_push_lt (schema : List (String × RawShape))
    (infl : List (Sil × Nat)) (n : String) (raw : RawShape) (id : Nat)
    (hmem : (n, raw) ∈ schema)
    (hfree : findAssoc infl (sil n raw) = none) :
    freeCount schema ((sil n raw, id) :: infl) < freeCount schema infl := by
  unfold freeCount
  apply length_filter_strict
  · intro x _ hq
    rw [findAssoc] at hq
    by_cases hs : sil x.1 x.2 = sil n raw
    · rw [if_pos hs] at hq
      simp at hq
    · rw [if_neg hs] at hq
      exact hq
  · exact hmem
  · show (findAssoc infl (sil n raw)).isNone = true
    rw [hfree]
    rfl
  · show (findAssoc ((sil n raw, id) :: infl) (sil n raw)).isNone = false
    rw [findAssoc, if_pos rfl]
    rfl

mutual

/-- With fuel exceeding the number of schema entries not yet in flight,
`__getitem__` always completes — the silhouette memo caps the recursion
depth even on cyclic schemas, provided every reference resolves and every
canonical form computes (i.e. reference cycles pass through structure
shapes, whose canonical form is non-recursive). -/
theorem getShape_total (schema : List (String × RawShape))
    (hrefs : ∀ p ∈ schema, ∀ r ∈ p.2.refs, r ∈ schema.map (·.1))
    (hcan : ∀ p ∈ schema,
      (canonicalForm schema (schema.length + 1) p.1).isSome) :
    ∀ (fuel : Nat) (st : BuildState) (n : String),
      n ∈ schema.map (·.1) → freeCount schema st.inflight < fuel →
      (getShape schema fuel st n).isSome
  | 0, st, n => by
      intro _ hfuel
      exact absurd hfuel (Nat.not_lt_zero _)
  | fuel + 1, st, n => by
      intro hn hfuel
      rw [getShape_succ]
      split
      · rename_i hraw
        have := findAssoc_isSome_of_mem schema n hn
        rw [hraw] at this
        exact absurd this (by simp)
      · rename_i raw hraw
        split
        · rfl
        · rename_i hinf
          have hmem := findAssoc_mem schema n raw hraw
          split
          · rename_i hres
            have hlt := freeCount_push_lt schema st.inflight n raw st.nextId
              hmem hinf
            have hrr := resolveRefs_total schema hrefs hcan fuel
              ⟨st.nextId + 1, (sil n raw, st.nextId) :: st.inflight,
                st.canon⟩
              raw.refs (fun r hr => hrefs (n, raw) hmem r hr)
              (by show freeCount schema
                    ((sil n raw, st.nextId) :: st.inflight) < fuel
                  omega)
            rw [hres] at hrr
            exact absurd hrr (by simp)
          · rename_i st₃ hres
            split
            · rename_i hcf
              have := hcan (n, raw) hmem
              rw [hcf] at this
              exact absurd this (by simp)
            · rename_i c hcf
              split
              · rfl
              · rfl
termination_by fuel st n => (fuel, 0)

/-- Companion totality for `build()`'s reference resolution. -/
theorem resolveRefs_total (schema : List (String × RawShape))
    (hrefs : ∀ p ∈ schema, ∀ r ∈ p.2.refs, r ∈ schema.map (·.1))
    (hcan : ∀ p ∈ schema,
      (canonicalForm schema (schema.length + 1) p.1).isSome) :
    ∀ (fuel : Nat) (st : BuildState) (refs : List String),
      (∀ r ∈ refs, r ∈ schema.map (·.1)) →
      freeCount schema st.inflight < fuel →
      (resolveRefs schema fuel st refs).isSome
  | fuel, st, [] => by
      intro _ _
      rw [resolveRefs_nil]
      rfl
  | fuel, st, r :: rs => by
      intro hr hfuel
      rw [resolveRefs_cons]
      have hg := getShape_total schema hrefs hcan fuel st r
        (hr r (List.mem_cons_self r rs)) hfuel
      obtain ⟨st₁, i₁, hgs⟩ : ∃ st₁ i₁, getShape schema fuel st r =
          some (st₁, i₁) := by
        cases hgg : getShape schema fuel st r with
        | none => rw [hgg] at hg; exact absurd hg (by simp)
        | some p => exact ⟨p.1, p.2, rfl⟩
      rw [hgs]
      have hpres := (getShape_preserves schema fuel st r st₁ i₁ hgs).1
      show (resolveRefs schema fuel st₁ rs).isSome = true
      exact resolveRefs_total schema hrefs hcan fuel st₁ rs
        (fun x hx => hr x (List.mem_cons_of_mem r hx))
        (by rw [show freeCount schema st₁.inflight =
              freeCount schema st.inflight from by rw [hpres]]
            exact hfuel)
termination_by fuel st refs => (fuel, refs.length + 1)

end

/-- Two successful non-in-flight resolutions of the same raw type, the
second started from the first's resulting state, return the same
instance: the first leaves the instance in the canonical table, the
second rebuilds but returns the cached instance found under the same
canonical form. -/
theorem getShape_shared (schema : List (String × RawShape))
    (fuel₁ fuel₂ : Nat) (st st₁ st₂ : BuildState) (n : String)
    (raw : RawShape) (c : CanForm) (i₁ i₂ : Nat)
    (hraw : findAssoc schema n = some raw)
    (hinf : findAssoc st.inflight (sil n raw) = none)
    (hcf : canonicalForm schema (schema.length + 1) n = some c)
    (h1 : getShape schema fuel₁ st n = some (st₁, i₁))
    (h2 : getShape schema fuel₂ st₁ n = some (st₂, i₂)) :
    i₂ = i₁ := by
  have hc₁ : findAssoc st₁.canon c = some i₁ :=
    getShape_canon_self schema fuel₁ st n raw c st₁ i₁ hraw hinf hcf h1
  have hinf₁ : findAssoc st₁.inflight (sil n raw) = none := by
    rw [(getShape_preserves schema fuel₁ st n st₁ i₁ h1).1]
    exact hinf
  cases fuel₂ with
  | zero =>
      rw [getShape_zero] at h2
      exact absurd h2 (by simp)
  | succ f =>
      rw [getShape_succ] at h2
      split at h2
      · exact absurd h2 (by simp)
      · rename_i raw' hraw'
        have hr : raw' = raw := by
          rw [hraw] at hraw'
          exact (Option.some.inj hraw').symm
        split at h2
        · rename_i j hinf'
          rw [hr, hinf₁] at hinf'
          exact absurd hinf' (by simp)
        · rename_i hinf'
          split at h2
          · exact absurd h2 (by simp)
          · rename_i st₃ hres
            rw [hr] at hres
            have hcanmono := (resolveRefs_preserves schema f
              ⟨st₁.nextId + 1, (sil n raw, st₁.nextId) :: st₁.inflight,
                st₁.canon⟩ raw.refs st₃ hres).2
            have hc₃ : findAssoc st₃.canon c = some i₁ := hcanmono c i₁ hc₁
            split at h2
            · exact absurd h2 (by simp)
            · rename_i c' hcf'
              have hcc : c' = c := by
                rw [hcf] at hcf'
                exact (Option.some.inj hcf').symm
              subst hcc
              split at h2
              · rename_i j hcanhit
                rw [hc₃] at hcanhit
                have hj := Option.some.inj hcanhit
                have hp := Option.some.inj h2
                rw [Prod.mk.injEq] at hp
                rw [← hp.2, ← hj]
              · rename_i hcanmiss
                rw [hc₃] at hcanmiss
                exact absurd hcanmiss (by simp)

/-- C5: for every schema whose references all resolve and whose canonical
forms all compute (in particular cyclic schemas whose cycles pass through
structure shapes, since a structure's canonical form is its non-recursive
silhouette), building any declared shape with fuel `|schema| + 1`
terminates — the silhouette memo bounds the recursion depth by the number
of distinct raw types — and any two successful non-in-flight resolutions
of the same raw type, the second from the first's resulting state, return
the same shape instance (the one installed in the canonical table). -/
theorem shape_model_cyclic_terminates_shares
    (schema : List (String × RawShape))
    (hrefs : ∀ p ∈ schema, ∀ r ∈ p.2.refs, r ∈ schema.map (·.1))
    (hcan : ∀ p ∈ schema,
      (canonicalForm schema (schema.length + 1) p.1).isSome) :
    (∀ n ∈ schema.map (·.1),
      (getShape schema (schema.length + 1) BuildState.init n).isSome) ∧
    (∀ (fuel₁ fuel₂ : Nat) (st st₁ st₂ : BuildState) (n : String)
       (raw : RawShape) (c : CanForm) (i₁ i₂ : Nat),
       findAssoc schema n = some raw →
       findAssoc st.inflight (sil n raw) = none →
       canonicalForm schema (schema.length + 1) n = some c →
       getShape schema fuel₁ st n = some (st₁, i₁) →
       getShape schema fuel₂ st₁ n = some (st₂, i₂) →
       i₂ = i₁) := by
  constructor
  · intro n hn
    refine getShape_total schema hrefs hcan (schema.length + 1)
      BuildState.init n hn ?_
    have := freeCount_le schema BuildState.init.inflight
    omega
  · intro fuel₁ fuel₂ st st₁ st₂ n raw c i₁ i₂ hraw hinf hcf h1 h2
    exact getShape_shared schema fuel₁ fuel₂ st st₁ st₂ n raw c i₁ i₂
      hraw hinf hcf h1 h2

/-- C5 witness: the hypotheses hold for the directly self-referential
`cyclicSchema`, and building its `Expr` shape terminates. -/
theorem shape_model_cyclic_witness :
    ((∀ p ∈ cyclicSchema, ∀ r ∈ p.2.refs, r ∈ cyclicSchema.map (·.1)) ∧
     (∀ p ∈ cyclicSchema,
       (canonicalForm cyclicSchema (cyclicSchema.length + 1) p.1).isSome)) ∧
    (getShape cyclicSchema (cyclicSchema.length + 1) BuildState.init
      "Expr").isSome := by
  have h1 : ∀ p ∈ cyclicSchema, ∀ r ∈ p.2.refs,
      r ∈ cyclicSchema.map (·.1) := by decide
  have h2 : ∀ p ∈ cyclicSchema,
      (canonicalForm cyclicSchema (cyclicSchema.length + 1) p.1).isSome := by
    decide
  exact ⟨⟨h1, h2⟩, (shape_model_cyclic_terminates_shares cyclicSchema h1
    h2).1 "Expr" (by decide)⟩
